import Mathlib

/-! # Verification of the mapcache tile downloader

A shallow embedding of `src/bin/mapcache_download.js` (the enhanced map tile
downloader) together with proofs about its tile-range computation, provider URL
resolution, retry/backoff loop, batched scheduler, progress counters and
argument validation.

Numbers that the JavaScript source manipulates with floating-point arithmetic
are modelled as real numbers (`ℝ`); decimal literals denote the exact rational
value written in the source.  Asynchronous control flow (the retry loop, the
batched `Promise.all` scheduler) is modelled by pure functions over explicit
oracles describing the outcome of each network fetch / image conversion.
-/

namespace Mapcache

/-! ## Oracles for the effectful parts

`Env.fetchOk k` tells whether the HTTP fetch performed on attempt number `k`
(1-based, as in the source loop `for (let attempt = 1; ...)`) succeeds, and
`Env.convertOk k` whether the sharp JPEG→PNG re-encode performed on attempt
`k` succeeds.  Writing to disk is not separated from the fetch outcome since
no claim distinguishes the two. -/
structure Env where
  fetchOk : Nat → Bool
  convertOk : Nat → Bool

/-- Result of one call of `download_image` (`src/bin/mapcache_download.js`
lines 109-133): whether it returned normally (`success = true`) or threw on
the final attempt, how many fetch attempts were made, how many JPEG→PNG
conversions were attempted, and the list of backoff delays (in ms) performed
between attempts, in order. -/
structure DLResult where
  success : Bool
  attempts : Nat
  conversions : Nat
  delays : List Nat
deriving DecidableEq, Repr

/-- On attempt `k` a conversion is attempted exactly when the fetch succeeded
and the provider is Mapbox satellite (the `sharp(response.data).png()` call sits
inside the `try` block, after a successful `axios` response). -/
def attemptConverts (env : Env) (isSat : Bool) (k : Nat) : Bool :=
  env.fetchOk k && isSat

/-- Attempt `k` completes without throwing iff the fetch succeeds and, when a
conversion is required, the conversion also succeeds. -/
def attemptSucceeds (env : Env) (isSat : Bool) (k : Nat) : Bool :=
  env.fetchOk k && (!isSat || env.convertOk k)

/-- The retry loop of `download_image`, unrolled: `attempt` is the 1-based
index of the current attempt and `fuel` the number of attempts still allowed
(`retries - attempt + 1` in the source).  A failed non-final attempt performs
a delay of `1000 * attempt` ms (`setTimeout(resolve, 1000 * attempt)`) and
retries; a failed final attempt re-throws (`success = false`). -/
def dlAux (env : Env) (isSat : Bool) : Nat → Nat → DLResult
  | _, 0 => ⟨false, 0, 0, []⟩
  | attempt, fuel + 1 =>
    let conv : Nat := if attemptConverts env isSat attempt then 1 else 0
    if attemptSucceeds env isSat attempt then ⟨true, 1, conv, []⟩
    else if fuel = 0 then ⟨false, 1, conv, []⟩
    else
      let r := dlAux env isSat (attempt + 1) fuel
      ⟨r.success, r.attempts + 1, conv + r.conversions, 1000 * attempt :: r.delays⟩

/-- `download_image(url, image_path, isMapboxSatellite, retries)`:
the loop starts at attempt 1 with `retries` attempts allowed. -/
def download_image (env : Env) (isSat : Bool) (retries : Nat) : DLResult :=
  dlAux env isSat 1 retries

/-! ## Provider URL and filename resolution

`getTileUrlAndFilename` (lines 139-157).  The provider is the global
`map_provider` (0 = OSM, 1 = Mapbox Satellite, 2 = Mapbox Terrain RGB) and the
token the global `TOKEN`; both are passed explicitly here. -/

/-- `getTileUrlAndFilename(i, j, zoom)` returns `(url, filename,
isMapboxSatellite)`. -/
def getTileUrlAndFilename (map_provider : Nat) (token : String) (i j zoom : Nat) :
    String × String × Bool :=
  if map_provider = 1 then
    ("https://api.mapbox.com/styles/v1/mapbox/satellite-v9/tiles/" ++ toString zoom ++ "/" ++
        toString i ++ "/" ++ toString j ++ "?access_token=" ++ token,
      "sat" ++ "_" ++ toString i ++ "_" ++ toString j ++ "_" ++ toString zoom ++ ".png",
      true)
  else if map_provider = 2 then
    ("https://api.mapbox.com/v4/mapbox.terrain-rgb/" ++ toString zoom ++ "/" ++ toString i ++
        "/" ++ toString j ++ ".png?access_token=" ++ token,
      "terrain" ++ "_" ++ toString i ++ "_" ++ toString j ++ "_" ++ toString zoom ++ ".png",
      false)
  else
    ("https://tile.openstreetmap.org/" ++ toString zoom ++ "/" ++ toString i ++ "/" ++
        toString j ++ ".png",
      "osm" ++ "_" ++ toString i ++ "_" ++ toString j ++ "_" ++ toString zoom ++ ".png",
      false)

/-! ## The batched scheduler -/

/-- The integers `a, a+1, ..., b` (empty when `b < a`): the index sequences of
the `for (let i = point1.x; i <= point2.x; i++)` loops. -/
def rangeInt (a b : Int) : List Int :=
  (List.range (b + 1 - a).toNat).map fun k : Nat => a + (k : Int)

/-- The job list built at the top of `fn_download_tiles_for_zoom`
(lines 164-169): all `(i, j)` with `point1.x ≤ i ≤ point2.x` (outer loop) and
`point1.y ≤ j ≤ point2.y` (inner loop), in loop order. -/
def tileList (p1 p2 : Int × Int) : List (Int × Int) :=
  (rangeInt p1.1 p2.1).flatMap fun i => (rangeInt p1.2 p2.2).map fun j => (i, j)

/-- Fuel-indexed batch splitting; with `fuel ≥ l.length` and a positive batch
size this reproduces `tiles.slice(batchStart, batchStart + concurrency)` for
`batchStart = 0, c, 2c, ...`. -/
def chunksF {α : Type} : Nat → Nat → List α → List (List α)
  | 0, _, _ => []
  | _ + 1, _, [] => []
  | fuel + 1, c, l => l.take c :: chunksF fuel c (l.drop c)

/-- The consecutive batches of size `c` of a job list (last batch possibly
shorter). -/
def chunks {α : Type} (c : Nat) (l : List α) : List (List α) :=
  chunksF l.length c l

/-- Tile outcomes as reported per job: `Success` (downloaded), `Skipped`
(file already present and `force` false) or `Failed` (retries exhausted). -/
inductive Outcome
  | success
  | skipped
  | failed
deriving DecidableEq, Repr

/-- What happened to a single tile job: its outcome, how many fetch attempts
and conversions it caused, the backoff delays it performed, and whether the
progress counter was bumped for it (`downloadedTiles++` runs in the skip
branch and in the `finally` block, so it is always `true`). -/
structure JobResult where
  outcome : Outcome
  fetcherCalls : Nat
  conversions : Nat
  delays : List Nat
  counted : Bool
deriving DecidableEq, Repr

/-- The body of the per-job closure in `fn_download_tiles_for_zoom`
(lines 179-199): skip when the file exists and `force` is false, otherwise run
`download_image`; a throw from `download_image` is caught (`Failed`), and the
`finally` block records progress in every case. -/
def processJob (env : Env) (isSat : Bool) (retries : Nat) (force : Bool)
    (fileExists : Bool) : JobResult :=
  if !force && fileExists then ⟨.skipped, 0, 0, [], true⟩
  else
    let r := download_image env isSat retries
    ⟨if r.success then .success else .failed, r.attempts, r.conversions, r.delays, true⟩

/-- One zoom level of the scheduler: the job list is split into consecutive
batches of `concurrency` jobs and each batch is processed (concurrently in the
source, with `await Promise.all` finishing a batch before the next one
starts).  `envOf` and `existsOf` supply the per-tile fetch/convert oracle and
the `fs.existsSync` answer. -/
def fn_download_tiles_for_zoom (envOf : Int × Int → Env) (existsOf : Int × Int → Bool)
    (isSat : Bool) (retries : Nat) (force : Bool) (concurrency : Nat)
    (p1 p2 : Int × Int) : List (List JobResult) :=
  (chunks concurrency (tileList p1 p2)).map fun batch =>
    batch.map fun t => processJob (envOf t) isSat retries force (existsOf t)

/-! ### Dispatch/completion traces

To talk about how many fetches are in flight at any instant we record the
scheduler's behaviour as a sequence of events: inside one batch all jobs are
dispatched (the `batch.map(async ...)` creates every promise) and then all of
them complete before the next batch starts (`await Promise.all(batch)`). -/

/-- A dispatch or completion event for a tile job. -/
inductive Ev (α : Type)
  | dispatch (a : α)
  | complete (a : α)
deriving DecidableEq

/-- The event trace of one zoom level: per batch, all dispatches followed by
all completions. -/
def zoomTrace {α : Type} (c : Nat) (jobs : List α) : List (Ev α) :=
  (chunks c jobs).flatMap fun b => b.map Ev.dispatch ++ b.map Ev.complete

/-- Whether an event is a dispatch. -/
def Ev.isDispatch {α : Type} : Ev α → Bool
  | .dispatch _ => true
  | .complete _ => false

/-- Whether an event is a completion. -/
def Ev.isComplete {α : Type} : Ev α → Bool
  | .dispatch _ => false
  | .complete _ => true

/-- The number of jobs in flight after a prefix of the trace: dispatched and
not yet completed. -/
def inFlight {α : Type} (t : List (Ev α)) : Int :=
  (t.countP Ev.isDispatch : Int) - (t.countP Ev.isComplete : Int)

/-! ## Spherical-Mercator projection and tile ranges

`project`, `unproject`, `zoomScale`, `transform` and
`fn_convertFromLngLatToPoints` (lines 49-103), over `ℝ`. -/

/-- `EARTH_RADIUS` (line 28). -/
def EARTH_RADIUS : ℝ := 6378137

/-- `MAX_LATITUDE` (line 29). -/
noncomputable def MAX_LATITUDE : ℝ := 85.0511287798

/-- A planar point `{x, y}`. -/
structure PlanarPoint where
  x : ℝ
  y : ℝ

/-- A geographic point `{lat, lng}` as returned by `unproject`. -/
structure GeoPoint where
  lat : ℝ
  lng : ℝ

/-- `project(p_lat, p_lng)` (lines 49-59): clamp the latitude to
`±MAX_LATITUDE`, then apply the spherical-Mercator formulas. -/
noncomputable def project (p_lat p_lng : ℝ) : PlanarPoint :=
  let d : ℝ := Real.pi / 180
  let max' : ℝ := MAX_LATITUDE
  let lat : ℝ := max (min max' p_lat) (-max')
  let sin' : ℝ := Real.sin (lat * d)
  { x := EARTH_RADIUS * p_lng * d
    y := EARTH_RADIUS * Real.log ((1 + sin') / (1 - sin')) / 2 }

/-- `unproject(point)` (lines 61-68). -/
noncomputable def unproject (point : PlanarPoint) : GeoPoint :=
  let d : ℝ := 180 / Real.pi
  { lat := (2 * Real.arctan (Real.exp (point.y / EARTH_RADIUS)) - Real.pi / 2) * d
    lng := point.x * d / EARTH_RADIUS }

/-- `zoomScale(zoom)` (lines 70-72): `256 * 2^zoom`. -/
def zoomScale (zoom : ℕ) : ℝ := 256 * 2 ^ zoom

/-- `transform(point, scale)` (lines 74-79), with `scale` already supplied
(the `scale || 1` default never fires on the calls we model, since
`zoomScale` is positive). -/
def transform (point : PlanarPoint) (scale : ℝ) : PlanarPoint :=
  { x := scale * (2.495320233665337e-8 * point.x + 0.5)
    y := scale * (-2.495320233665337e-8 * point.y + 0.5) }

/-- `fn_convertFromLngLatToPoints(lat1, lng1, lat2, lng2, zoom)`
(lines 81-103): sort the longitudes and latitudes, project both corners,
scale, floor to integer tile indices, and finally sort the two `y` values. -/
noncomputable def fn_convertFromLngLatToPoints (lat1 lng1 lat2 lng2 : ℝ) (zoom : ℕ) :
    (Int × Int) × (Int × Int) :=
  let lngA := if lng1 > lng2 then lng2 else lng1
  let lngB := if lng1 > lng2 then lng1 else lng2
  let latA := if lat1 > lat2 then lat2 else lat1
  let latB := if lat1 > lat2 then lat1 else lat2
  let point1 := project latA lngA
  let point2 := project latB lngB
  let scaledZoom := zoomScale zoom
  let point1 := transform point1 scaledZoom
  let point2 := transform point2 scaledZoom
  let t1x : Int := ⌊point1.x / 256⌋
  let t1y : Int := ⌊point1.y / 256⌋
  let t2x : Int := ⌊point2.x / 256⌋
  let t2y : Int := ⌊point2.y / 256⌋
  let r1y : Int := if t1y > t2y then t2y else t1y
  let r2y : Int := if t1y > t2y then t1y else t2y
  ((t1x, r1y), (t2x, r2y))

/-- The tile-range algorithm exactly as the specification words it (C3): for
each corner in the given order, project (with clamped latitude), scale by
`zoomScale(zoom)`, divide by 256 and floor; then swap the two `y` values if
needed so that `min.y ≤ max.y`.  Latitude pre-sorting is *not* performed:
only the spec's final `y` swap is. -/
noncomputable def specTileRange (lat1 lng1 lat2 lng2 : ℝ) (zoom : ℕ) :
    (Int × Int) × (Int × Int) :=
  let point1 := transform (project lat1 lng1) (zoomScale zoom)
  let point2 := transform (project lat2 lng2) (zoomScale zoom)
  let t1x : Int := ⌊point1.x / 256⌋
  let t1y : Int := ⌊point1.y / 256⌋
  let t2x : Int := ⌊point2.x / 256⌋
  let t2y : Int := ⌊point2.y / 256⌋
  let r1y : Int := if t1y > t2y then t2y else t1y
  let r2y : Int := if t1y > t2y then t1y else t2y
  ((t1x, r1y), (t2x, r2y))

/-! ## The run-level progress counters

`main` (lines 300-320) first adds, for every zoom level, the rectangle area
`(point2.x - point1.x + 1) * (point2.y - point1.y + 1)` to the global
`totalTiles` (lines 306-309); then it calls `fn_download_tiles_for_zoom` per
zoom level, which adds `tiles.length` to `totalTiles` *again* (line 171) and
bumps `downloadedTiles` once per job (skip branch line 185, `finally` block
line 196). -/

/-- The zoom levels `zout, zout+1, ..., zin` iterated by `main`. -/
def zoomLevels (zout zin : Nat) : List Nat :=
  (List.range (zin + 1 - zout)).map fun k => zout + k

/-- The summand of the pre-pass in `main` (line 308). -/
def tileCountFormula (p : (Int × Int) × (Int × Int)) : Int :=
  (p.2.1 - p.1.1 + 1) * (p.2.2 - p.1.2 + 1)

/-- The final values of the global counters `totalTiles` and
`downloadedTiles` after `main` finishes a run. -/
structure RunCounters where
  totalTiles : Int
  downloadedTiles : Int

/-- The counters after a full run of `main` over zoom levels
`zout..zin`: `totalTiles` receives the pre-pass sum *and* each zoom level's
job count; `downloadedTiles` is bumped exactly once per job of each zoom
level. -/
noncomputable def mainCounters (lat1 lng1 lat2 lng2 : ℝ) (zout zin : Nat) : RunCounters :=
  let zs := zoomLevels zout zin
  let range := fun z => fn_convertFromLngLatToPoints lat1 lng1 lat2 lng2 z
  let pre := (zs.map fun z => tileCountFormula (range z)).sum
  let perZoom := (zs.map fun z => (tileList (range z).1 (range z).2).length).sum
  { totalTiles := pre + (perZoom : Int), downloadedTiles := (perZoom : Int) }

/-! ## Argument validation (C10)

`fn_handle_arguments` (lines 217-294).  The values held in `myArgs` are
JavaScript values; the model carries the cases the validation logic
distinguishes.  JavaScript truthiness: the number `0`, the empty string,
`false` and `undefined` are falsy.  (Numeric comparison of non-numeric
values, which JavaScript would perform by coercion, is irrelevant to the
claims and left as `false`.) -/

/-- A JavaScript value as stored in `myArgs`. -/
inductive JSVal
  | num (x : ℚ)
  | str (s : String)
  | boolean (b : Bool)
  | undef
deriving DecidableEq, Repr

/-- JavaScript truthiness of a value. -/
def truthy : JSVal → Bool
  | .num x => x ≠ 0
  | .str s => s ≠ ""
  | .boolean b => b
  | .undef => false

/-- JavaScript `<` against a numeric literal, for numeric values. -/
def JSVal.lt : JSVal → ℚ → Bool
  | .num x, q => x < q
  | _, _ => false

/-- JavaScript `>` against a numeric literal, for numeric values. -/
def JSVal.gt : JSVal → ℚ → Bool
  | .num x, q => q < x
  | _, _ => false

/-- The fields of `myArgs` that the validation logic inspects. -/
structure Args where
  lat1 : JSVal
  lng1 : JSVal
  lat2 : JSVal
  lng2 : JSVal
  zin : JSVal
  zout : JSVal
  folder : JSVal
  provider : JSVal
  token : JSVal
deriving DecidableEq, Repr

/-- The `(name, value)` pairs walked by the required-argument `forEach`
(line 244): `["lat1", "lng1", "lat2", "lng2", "zin", "folder"]`. -/
def requiredPairs (a : Args) : List (String × JSVal) :=
  [("lat1", a.lat1), ("lng1", a.lng1), ("lat2", a.lat2), ("lng2", a.lng2),
    ("zin", a.zin), ("folder", a.folder)]

/-- The required arguments reported missing: those whose value is falsy
(`if (!myArgs[arg])`, line 245). -/
def missingArgs (a : Args) : List String :=
  ((requiredPairs a).filter fun p => !truthy p.2).map fun p => p.1

/-- The latitude range check for one value (lines 252-257): it fires only
when the value is truthy (`myArgs[arg] && (myArgs[arg] < -90 || myArgs[arg] >
90)`). -/
def latRangeBad (v : JSVal) : Bool :=
  truthy v && (v.lt (-90) || v.gt 90)

/-- The longitude range check for one value (lines 258-263). -/
def lngRangeBad (v : JSVal) : Bool :=
  truthy v && (v.lt (-180) || v.gt 180)

/-- The `error` flag accumulated by `fn_handle_arguments` over the required,
range, and token checks (the zoom checks of lines 276-281 operate on parsed
integers and are modelled by their boolean outcome `zoomBad`, supplied by the
caller of the model since `parseInt` of arbitrary JS values is outside the
claims' scope). -/
def fn_handle_arguments_error (a : Args) (zoomBad : Bool) : Bool :=
  decide (missingArgs a ≠ []) ||
    (latRangeBad a.lat1 || latRangeBad a.lat2) ||
    (lngRangeBad a.lng1 || lngRangeBad a.lng2) ||
    ((a.provider = JSVal.num 1 || a.provider = JSVal.num 2) && !truthy a.token) ||
    zoomBad

/-- Whether the run aborts pre-flight (`if (error) process.exit(1)`,
line 286): no download is ever attempted in that case. -/
def abortsPreflight (a : Args) (zoomBad : Bool) : Bool :=
  fn_handle_arguments_error a zoomBad

/-! ## Specification-side URL and filename templates (C8)

These definitions transcribe the templates from the specification's provider
table and filename contract, to be compared with `getTileUrlAndFilename`. -/

/-- Spec template: `https://tile.openstreetmap.org/{z}/{x}/{y}.png`. -/
def specOsmUrl (x y z : Nat) : String :=
  "https://tile.openstreetmap.org/" ++ toString z ++ "/" ++ toString x ++ "/" ++
    toString y ++ ".png"

/-- Spec template:
`https://api.mapbox.com/styles/v1/mapbox/satellite-v9/tiles/{z}/{x}/{y}?access_token={token}`. -/
def specSatUrl (token : String) (x y z : Nat) : String :=
  "https://api.mapbox.com/styles/v1/mapbox/satellite-v9/tiles/" ++ toString z ++ "/" ++
    toString x ++ "/" ++ toString y ++ "?access_token=" ++ token

/-- Spec template:
`https://api.mapbox.com/v4/mapbox.terrain-rgb/{z}/{x}/{y}.png?access_token={token}`. -/
def specTerrainUrl (token : String) (x y z : Nat) : String :=
  "https://api.mapbox.com/v4/mapbox.terrain-rgb/" ++ toString z ++ "/" ++ toString x ++
    "/" ++ toString y ++ ".png?access_token=" ++ token

/-- Spec filename contract: `{providerPrefix}_{x}_{y}_{z}.png`. -/
def specFilename (pfx : String) (x y z : Nat) : String :=
  pfx ++ "_" ++ toString x ++ "_" ++ toString y ++ "_" ++ toString z ++ ".png"

/-- The numeric value of a list of decimal digit characters (most significant
first); a left inverse to decimal rendering, used to show filenames are
collision-free. -/
def digitsVal (l : List Char) : Nat :=
  l.foldl (fun a c => 10 * a + (c.toNat - 48)) 0

/-- A fetch oracle whose fetches always fail (concrete test input). -/
def envFail : Env := ⟨fun _ => false, fun _ => true⟩

/-- A fetch oracle whose fetches always succeed but whose JPEG→PNG
conversions always fail (concrete test input). -/
def envConvFail : Env := ⟨fun _ => true, fun _ => false⟩

/-- A concrete argument set whose `lat1` is the number `0` (a valid equator
coordinate) and whose remaining arguments are present and valid. -/
def argsZeroLat : Args :=
  { lat1 := .num 0, lng1 := .num 31, lat2 := .num 29, lng2 := .num 32,
    zin := .num 10, zout := .num 0, folder := .str "./out",
    provider := .undef, token := .undef }

/-! ## Lemmas about the retry loop -/

theorem dlAux_attempts_le (env : Env) (isSat : Bool) :
    ∀ fuel attempt, (dlAux env isSat attempt fuel).attempts ≤ fuel := by
  intro fuel
  induction fuel with
  | zero => intro attempt; simp [dlAux]
  | succ f ih =>
    intro attempt
    by_cases hs : attemptSucceeds env isSat attempt = true
    · simp [dlAux, hs]
    · by_cases hf : f = 0
      · simp [dlAux, hs, hf]
      · simpa [dlAux, hs, hf] using ih (attempt + 1)

theorem dlAux_attempts_pos (env : Env) (isSat : Bool) :
    ∀ fuel attempt, 1 ≤ fuel → 1 ≤ (dlAux env isSat attempt fuel).attempts := by
  intro fuel attempt hfuel
  match fuel, hfuel with
  | f + 1, _ =>
    by_cases hs : attemptSucceeds env isSat attempt = true
    · simp [dlAux, hs]
    · by_cases hf : f = 0
      · simp [dlAux, hs, hf]
      · simp [dlAux, hs, hf]

theorem dlAux_delays_spec (env : Env) (isSat : Bool) :
    ∀ fuel attempt,
      (dlAux env isSat attempt fuel).delays =
        (List.range ((dlAux env isSat attempt fuel).attempts - 1)).map
          fun k => 1000 * (attempt + k) := by
  intro fuel
  induction fuel with
  | zero => intro attempt; simp [dlAux]
  | succ f ih =>
    intro attempt
    by_cases hs : attemptSucceeds env isSat attempt = true
    · simp [dlAux, hs]
    · by_cases hf : f = 0
      · simp [dlAux, hs, hf]
      · have hpos : 1 ≤ (dlAux env isSat (attempt + 1) f).attempts :=
          dlAux_attempts_pos env isSat f (attempt + 1) (Nat.one_le_iff_ne_zero.mpr hf)
        have hpos' : 1 ≤ (dlAux env isSat (attempt + 1) f).attempts :=
          dlAux_attempts_pos env isSat f (attempt + 1) (Nat.one_le_iff_ne_zero.mpr hf)
        have hrange :
            List.range ((dlAux env isSat (attempt + 1) f).attempts - 1 + 1) =
              0 :: (List.range ((dlAux env isSat (attempt + 1) f).attempts - 1)).map
                Nat.succ := List.range_succ_eq_map _
        simp only [dlAux]
        rw [if_neg hs, if_neg hf]
        rw [show (dlAux env isSat (attempt + 1) f).attempts + 1 - 1 =
          (dlAux env isSat (attempt + 1) f).attempts - 1 + 1 from by omega, hrange]
        simp only [List.map_cons, List.map_map, Nat.add_zero, List.cons.injEq,
          true_and, eq_self_iff_true]
        rw [ih (attempt + 1)]
        apply List.map_congr_left
        intro k _
        simp [Function.comp]
        ring

theorem download_image_attempts_le (env : Env) (isSat : Bool) (retries : Nat) :
    (download_image env isSat retries).attempts ≤ retries :=
  dlAux_attempts_le env isSat retries 1

theorem download_image_attempts_pos (env : Env) (isSat : Bool) (retries : Nat)
    (h : 1 ≤ retries) : 1 ≤ (download_image env isSat retries).attempts :=
  dlAux_attempts_pos env isSat retries 1 h

theorem download_image_delays (env : Env) (isSat : Bool) (retries : Nat) :
    (download_image env isSat retries).delays =
      (List.range ((download_image env isSat retries).attempts - 1)).map
        fun k => 1000 * (k + 1) := by
  have h := dlAux_delays_spec env isSat retries 1
  rw [download_image, h]
  apply List.map_congr_left
  intro k _
  ring

/-! ## Lemmas about batching and the event trace -/

theorem chunksF_flatten {α : Type} (c : Nat) (hc : 0 < c) :
    ∀ fuel (l : List α), l.length ≤ fuel → (chunksF fuel c l).flatten = l := by
  intro fuel
  induction fuel with
  | zero =>
    intro l hl
    have : l = [] := List.length_eq_zero.mp (Nat.le_zero.mp hl)
    simp [this, chunksF]
  | succ f ih =>
    intro l hl
    match l with
    | [] => simp [chunksF]
    | x :: xs =>
      have hdrop : (List.drop c (x :: xs)).length ≤ f := by
        rw [List.length_drop]
        simp only [List.length_cons] at hl ⊢
        omega
      simp only [chunksF, List.flatten_cons, ih _ hdrop, List.take_append_drop]

theorem chunksF_length_le {α : Type} (c : Nat) :
    ∀ fuel (l : List α) b, b ∈ chunksF fuel c l → b.length ≤ c := by
  intro fuel
  induction fuel with
  | zero => intro l b hb; simp [chunksF] at hb
  | succ f ih =>
    intro l b hb
    match l with
    | [] => simp [chunksF] at hb
    | x :: xs =>
      simp only [chunksF, List.mem_cons] at hb
      rcases hb with hb | hb
      · subst hb
        simp [List.length_take]
      · exact ih _ b hb

theorem chunks_flatten {α : Type} (c : Nat) (hc : 0 < c) (l : List α) :
    (chunks c l).flatten = l :=
  chunksF_flatten c hc l.length l le_rfl

theorem chunks_length_le {α : Type} (c : Nat) (l : List α) (b : List α)
    (hb : b ∈ chunks c l) : b.length ≤ c :=
  chunksF_length_le c l.length l b hb

/-- The trace slice of one batch: all dispatches, then all completions. -/
theorem countP_dispatch_block {α : Type} (b : List α) :
    (b.map Ev.dispatch ++ b.map Ev.complete).countP Ev.isDispatch = b.length := by
  rw [List.countP_append]
  have h1 : (b.map Ev.dispatch).countP Ev.isDispatch = b.length := by
    rw [List.countP_map]
    simp [Function.comp, Ev.isDispatch, List.countP_true]
  have h2 : (b.map Ev.complete).countP Ev.isDispatch = 0 := by
    rw [List.countP_map]
    simp [Function.comp, Ev.isDispatch, List.countP_false]
  omega

theorem countP_complete_block {α : Type} (b : List α) :
    (b.map Ev.dispatch ++ b.map Ev.complete).countP Ev.isComplete = b.length := by
  rw [List.countP_append]
  have h1 : (b.map Ev.complete).countP Ev.isComplete = b.length := by
    rw [List.countP_map]
    simp [Function.comp, Ev.isComplete, List.countP_true]
  have h2 : (b.map Ev.dispatch).countP Ev.isComplete = 0 := by
    rw [List.countP_map]
    simp [Function.comp, Ev.isComplete, List.countP_false]
  omega

theorem countP_prefix_le {α : Type} (p : α → Bool) (pre suf : List α) :
    pre.countP p ≤ (pre ++ suf).countP p := by
  rw [List.countP_append]; omega

/-- The in-flight ceiling for a concatenation of balanced batch traces whose
batches all have at most `C` jobs. -/
theorem ceiling_flatMap {α : Type} (C : Nat) :
    ∀ (bs : List (List α)), (∀ b ∈ bs, b.length ≤ C) →
      ∀ pre suf, bs.flatMap (fun b => b.map Ev.dispatch ++ b.map Ev.complete) = pre ++ suf →
        pre.countP Ev.isDispatch ≤ pre.countP Ev.isComplete + C := by
  intro bs
  induction bs with
  | nil =>
    intro _ pre suf h
    have : pre = [] := (List.append_eq_nil.mp h.symm).1
    simp [this]
  | cons b bs ih =>
    intro hlen pre suf h
    rw [List.flatMap_cons] at h
    rcases List.append_eq_append_iff.mp h with ⟨a', ha1, ha2⟩ | ⟨c', hc1, hc2⟩
    · -- pre = (block b) ++ a': the prefix extends past the first block
      subst ha1
      have hrest := ih (fun b hb => hlen b (List.mem_cons_of_mem _ hb)) a' suf ha2
      have e1 : ((b.map Ev.dispatch ++ b.map Ev.complete) ++ a').countP Ev.isDispatch
          = b.length + a'.countP Ev.isDispatch := by
        rw [List.countP_append, countP_dispatch_block]
      have e2 : ((b.map Ev.dispatch ++ b.map Ev.complete) ++ a').countP Ev.isComplete
          = b.length + a'.countP Ev.isComplete := by
        rw [List.countP_append, countP_complete_block]
      rw [e1, e2]
      omega
    · -- the first block = pre ++ c': the prefix stops inside the first block
      have h1 : pre.countP Ev.isDispatch ≤
          (b.map Ev.dispatch ++ b.map Ev.complete).countP Ev.isDispatch := by
        rw [hc1]; exact countP_prefix_le _ pre c'
      rw [countP_dispatch_block] at h1
      have h2 := hlen b (List.mem_cons_self _ _)
      omega

/-- Unique-occurrence splitting: if `a` occurs in neither prefix, equal
decompositions around `a` coincide. -/
theorem append_cons_eq_unique {α : Type} (a : α) :
    ∀ (p₁ p₂ s₁ s₂ : List α), p₁ ++ a :: s₁ = p₂ ++ a :: s₂ →
      a ∉ p₁ → a ∉ p₂ → p₁ = p₂ := by
  intro p₁
  induction p₁ with
  | nil =>
    intro p₂ s₁ s₂ h h1 h2
    match p₂ with
    | [] => rfl
    | x :: xs =>
      exfalso
      have : a = x := by
        have := congrArg (fun l => l.head?) h
        simpa using this
      exact h2 (this ▸ List.mem_cons_self _ _)
  | cons x xs ih =>
    intro p₂ s₁ s₂ h h1 h2
    match p₂ with
    | [] =>
      exfalso
      have : x = a := by
        have := congrArg (fun l => l.head?) h
        simpa using this
      exact h1 (this ▸ List.mem_cons_self _ _)
    | y :: ys =>
      have hxy : x = y := by
        have := congrArg (fun l => l.head?) h
        simpa using this
      have htl : xs ++ a :: s₁ = ys ++ a :: s₂ := by
        have := congrArg List.tail h
        simpa using this
      have h1' : a ∉ xs := fun hm => h1 (List.mem_cons_of_mem _ hm)
      have h2' : a ∉ ys := fun hm => h2 (List.mem_cons_of_mem _ hm)
      rw [hxy, ih ys s₁ s₂ htl h1' h2']

theorem rangeInt_nodup (a b : Int) : (rangeInt a b).Nodup := by
  unfold rangeInt
  refine List.Nodup.map ?_ (List.nodup_range _)
  intro m n h
  dsimp only at h
  omega

theorem tileList_nodup (p1 p2 : Int × Int) : (tileList p1 p2).Nodup :=
  List.Nodup.product (rangeInt_nodup _ _) (rangeInt_nodup _ _)

theorem scheduler_flatten (envOf : Int × Int → Env) (existsOf : Int × Int → Bool)
    (isSat : Bool) (retries : Nat) (force : Bool) (c : Nat) (p1 p2 : Int × Int)
    (hc : 0 < c) :
    (fn_download_tiles_for_zoom envOf existsOf isSat retries force c p1 p2).flatten =
      (tileList p1 p2).map
        fun t => processJob (envOf t) isSat retries force (existsOf t) := by
  unfold fn_download_tiles_for_zoom
  rw [← List.map_flatten, chunks_flatten _ hc]

/-- The count of a tile's dispatch event in one batch trace equals the count
of the tile in the batch. -/
theorem count_dispatch_block {α : Type} [DecidableEq α] (y : α) (b : List α) :
    (b.map Ev.dispatch ++ b.map Ev.complete).count (Ev.dispatch y) = b.count y := by
  rw [List.count_append]
  have hinj : Function.Injective (Ev.dispatch : α → Ev α) := by
    intro u v h; injection h
  have h1 : (b.map Ev.dispatch).count (Ev.dispatch y) = b.count y :=
    List.count_map_of_injective b Ev.dispatch hinj y
  have h2 : (b.map Ev.complete).count (Ev.dispatch y) = 0 := by
    rw [List.count_eq_zero]
    intro hmem
    rcases List.mem_map.mp hmem with ⟨u, _, hu⟩
    exact Ev.noConfusion hu
  omega

/-- A dispatch event occurs in the zoom trace as often as its tile occurs in
the job list. -/
theorem count_dispatch_trace {α : Type} [DecidableEq α] (c : Nat) (hc : 0 < c)
    (jobs : List α) (y : α) :
    (zoomTrace c jobs).count (Ev.dispatch y) = jobs.count y := by
  unfold zoomTrace
  rw [List.flatMap_def, List.count_flatten, List.map_map]
  have h1 : (chunks c jobs).map
      (List.count (Ev.dispatch y) ∘ fun b => b.map Ev.dispatch ++ b.map Ev.complete) =
      (chunks c jobs).map (List.count y) := by
    apply List.map_congr_left
    intro b _
    exact count_dispatch_block y b
  rw [h1, ← List.count_flatten, chunks_flatten _ hc]

/-- Batch barrier: with distinct jobs, every job of an earlier batch has
completed before any job of a later batch is dispatched. -/
theorem batch_barrier {α : Type} [DecidableEq α] (c : Nat) (hc : 0 < c)
    (jobs : List α) (hnd : jobs.Nodup) (bs₁ bs₂ bs₃ : List (List α)) (b₁ b₂ : List α)
    (hbs : chunks c jobs = bs₁ ++ b₁ :: bs₂ ++ b₂ :: bs₃)
    (x y : α) (hx : x ∈ b₁) (hy : y ∈ b₂)
    (pre suf : List (Ev α)) (hsplit : zoomTrace c jobs = pre ++ Ev.dispatch y :: suf) :
    Ev.complete x ∈ pre := by
  classical
  -- decompose b₂ around y and write the trace as A ++ dispatch y :: B
  rcases List.append_of_mem hy with ⟨s, t, hb₂⟩
  have htrace : zoomTrace c jobs =
      (bs₁.flatMap (fun b => b.map Ev.dispatch ++ b.map Ev.complete) ++
        (b₁.map Ev.dispatch ++ b₁.map Ev.complete) ++
        bs₂.flatMap (fun b => b.map Ev.dispatch ++ b.map Ev.complete) ++
        s.map Ev.dispatch) ++
      Ev.dispatch y ::
        (t.map Ev.dispatch ++ b₂.map Ev.complete ++
          bs₃.flatMap (fun b => b.map Ev.dispatch ++ b.map Ev.complete)) := by
    unfold zoomTrace
    rw [hbs, hb₂]
    simp [List.flatMap_append, List.flatMap_cons, List.append_assoc]
  -- the dispatch of y occurs exactly once in the whole trace
  have hcount : (zoomTrace c jobs).count (Ev.dispatch y) ≤ 1 := by
    rw [count_dispatch_trace c hc jobs y]
    exact List.nodup_iff_count_le_one.mp hnd y
  have hnotpre : Ev.dispatch y ∉ pre := by
    intro hmem
    have h1 : 1 ≤ pre.count (Ev.dispatch y) := List.one_le_count_iff.mpr hmem
    have h2 := hcount
    rw [hsplit, List.count_append, List.count_cons_self] at h2
    omega
  have hnotA : Ev.dispatch y ∉
      (bs₁.flatMap (fun b => b.map Ev.dispatch ++ b.map Ev.complete) ++
        (b₁.map Ev.dispatch ++ b₁.map Ev.complete) ++
        bs₂.flatMap (fun b => b.map Ev.dispatch ++ b.map Ev.complete) ++
        s.map Ev.dispatch) := by
    intro hmem
    have h1 : 1 ≤ (bs₁.flatMap (fun b => b.map Ev.dispatch ++ b.map Ev.complete) ++
        (b₁.map Ev.dispatch ++ b₁.map Ev.complete) ++
        bs₂.flatMap (fun b => b.map Ev.dispatch ++ b.map Ev.complete) ++
        s.map Ev.dispatch).count (Ev.dispatch y) := List.one_le_count_iff.mpr hmem
    have h2 := hcount
    rw [htrace, List.count_append, List.count_cons_self] at h2
    omega
  have hpreA : pre =
      bs₁.flatMap (fun b => b.map Ev.dispatch ++ b.map Ev.complete) ++
        (b₁.map Ev.dispatch ++ b₁.map Ev.complete) ++
        bs₂.flatMap (fun b => b.map Ev.dispatch ++ b.map Ev.complete) ++
        s.map Ev.dispatch := by
    exact append_cons_eq_unique (Ev.dispatch y) pre _ suf _
      (hsplit.symm.trans htrace) hnotpre hnotA
  rw [hpreA]
  have hxin : Ev.complete x ∈ b₁.map Ev.dispatch ++ b₁.map Ev.complete :=
    List.mem_append_right _ (List.mem_map_of_mem Ev.complete hx)
  exact List.mem_append_left _ (List.mem_append_left _ (List.mem_append_right _ hxin))

theorem dlAux_all_fail (env : Env) (hf : ∀ k, env.fetchOk k = true)
    (hc : ∀ k, env.convertOk k = false) :
    ∀ fuel attempt, dlAux env true attempt fuel =
      ⟨false, fuel, fuel,
        (List.range (fuel - 1)).map fun k => 1000 * (attempt + k)⟩ := by
  intro fuel
  induction fuel with
  | zero => intro attempt; simp [dlAux]
  | succ f ih =>
    intro attempt
    have hs : attemptSucceeds env true attempt = false := by
      simp [attemptSucceeds, hf attempt, hc attempt]
    have hcv : attemptConverts env true attempt = true := by
      simp [attemptConverts, hf attempt]
    by_cases hf0 : f = 0
    · simp [dlAux, hs, hcv, hf0]
    · simp only [dlAux]
      rw [if_neg (by simp [hs]), if_neg hf0, ih (attempt + 1)]
      simp only [hcv, if_pos, DLResult.mk.injEq]
      refine ⟨trivial, trivial, by omega, ?_⟩
      rw [show f + 1 - 1 = f - 1 + 1 from by omega, List.range_succ_eq_map _]
      simp only [List.map_cons, List.map_map, Nat.add_zero, List.cons.injEq,
        true_and, eq_self_iff_true]
      apply List.map_congr_left
      intro k _
      simp [Function.comp]
      ring

/-! ## Decimal rendering lemmas (for the filename contract) -/

theorem digitChar_isDigit (m : Nat) (h : m < 10) : (Nat.digitChar m).isDigit = true := by
  interval_cases m <;> decide

theorem digitChar_val (m : Nat) (h : m < 10) : (Nat.digitChar m).toNat - 48 = m := by
  interval_cases m <;> decide

theorem toDigitsCore_isDigit :
    ∀ fuel n (acc : List Char), (∀ c ∈ acc, c.isDigit = true) →
      ∀ c ∈ Nat.toDigitsCore 10 fuel n acc, c.isDigit = true := by
  intro fuel
  induction fuel with
  | zero => intro n acc hacc; simpa [Nat.toDigitsCore] using hacc
  | succ f ih =>
    intro n acc hacc c hc
    simp only [Nat.toDigitsCore] at hc
    by_cases h0 : n / 10 = 0
    · rw [if_pos h0] at hc
      rcases List.mem_cons.mp hc with hc | hc
      · subst hc; exact digitChar_isDigit _ (Nat.mod_lt _ (by norm_num))
      · exact hacc c hc
    · rw [if_neg h0] at hc
      refine ih (n / 10) (Nat.digitChar (n % 10) :: acc) ?_ c hc
      intro d hd
      rcases List.mem_cons.mp hd with hd | hd
      · subst hd; exact digitChar_isDigit _ (Nat.mod_lt _ (by norm_num))
      · exact hacc d hd

theorem repr_isDigit (n : Nat) : ∀ c ∈ (Nat.repr n).data, c.isDigit = true := by
  intro c hc
  refine toDigitsCore_isDigit (n + 1) n [] (by simp) c ?_
  simpa [Nat.repr, Nat.toDigits, List.asString] using hc

theorem repr_no_underscore (n : Nat) : ('_' : Char) ∉ (Nat.repr n).data := by
  intro h
  have := repr_isDigit n '_' h
  simp at this

theorem toDigitsCore_acc :
    ∀ fuel n (acc : List Char),
      Nat.toDigitsCore 10 fuel n acc = Nat.toDigitsCore 10 fuel n [] ++ acc := by
  intro fuel
  induction fuel with
  | zero => intro n acc; simp [Nat.toDigitsCore]
  | succ f ih =>
    intro n acc
    simp only [Nat.toDigitsCore]
    by_cases h0 : n / 10 = 0
    · simp [h0]
    · rw [if_neg h0, if_neg h0, ih (n / 10) (Nat.digitChar (n % 10) :: acc),
        ih (n / 10) [Nat.digitChar (n % 10)]]
      simp

theorem digitsVal_append_singleton (l : List Char) (c : Char) :
    digitsVal (l ++ [c]) = 10 * digitsVal l + (c.toNat - 48) := by
  simp [digitsVal, List.foldl_append]

theorem toDigitsCore_val :
    ∀ fuel n, n < fuel → digitsVal (Nat.toDigitsCore 10 fuel n []) = n := by
  intro fuel
  induction fuel with
  | zero => intro n h; omega
  | succ f ih =>
    intro n h
    simp only [Nat.toDigitsCore]
    by_cases h0 : n / 10 = 0
    · have hn : n < 10 := by omega
      rw [if_pos h0]
      have : digitsVal [Nat.digitChar (n % 10)] = (Nat.digitChar (n % 10)).toNat - 48 := by
        simp [digitsVal]
      rw [this, digitChar_val _ (Nat.mod_lt _ (by norm_num)), Nat.mod_eq_of_lt hn]
    · have h10 : 10 ≤ n := by omega
      have hlt : n / 10 < f := by omega
      rw [if_neg h0, toDigitsCore_acc f (n / 10) [Nat.digitChar (n % 10)],
        digitsVal_append_singleton, ih (n / 10) hlt,
        digitChar_val _ (Nat.mod_lt _ (by norm_num))]
      omega

theorem repr_val (n : Nat) : digitsVal (Nat.repr n).data = n := by
  have : (Nat.repr n).data = Nat.toDigitsCore 10 (n + 1) n [] := by
    simp [Nat.repr, Nat.toDigits, List.asString]
  rw [this]
  exact toDigitsCore_val (n + 1) n (Nat.lt_succ_self n)

/-! ## Splitting filenames at underscores -/

theorem split4 (ps xs ys ws : List Char)
    (hp : ('_' : Char) ∉ ps) (hx : ('_' : Char) ∉ xs) (hy : ('_' : Char) ∉ ys)
    (hw : ('_' : Char) ∉ ws) :
    (ps ++ '_' :: (xs ++ '_' :: (ys ++ '_' :: ws))).splitOn '_' = [ps, xs, ys, ws] := by
  have he : ([('_' : Char)].intercalate [ps, xs, ys, ws]) =
      ps ++ '_' :: (xs ++ '_' :: (ys ++ '_' :: ws)) := by
    simp [List.intercalate, List.intersperse]
  have hs := List.splitOn_intercalate [ps, xs, ys, ws] '_'
    (by
      intro l hl
      simp only [List.mem_cons, List.not_mem_nil, or_false] at hl
      rcases hl with rfl | rfl | rfl | rfl <;> assumption)
    (by simp)
  rw [he] at hs
  exact hs

theorem name_parts_inj (ps qs xs xs' ys ys' zs zs' tail : List Char)
    (hps : ('_' : Char) ∉ ps) (hqs : ('_' : Char) ∉ qs)
    (hxs : ('_' : Char) ∉ xs) (hxs' : ('_' : Char) ∉ xs')
    (hys : ('_' : Char) ∉ ys) (hys' : ('_' : Char) ∉ ys')
    (hzs : ('_' : Char) ∉ zs) (hzs' : ('_' : Char) ∉ zs')
    (htail : ('_' : Char) ∉ tail)
    (h : ps ++ '_' :: (xs ++ '_' :: (ys ++ '_' :: (zs ++ tail))) =
        qs ++ '_' :: (xs' ++ '_' :: (ys' ++ '_' :: (zs' ++ tail)))) :
    ps = qs ∧ xs = xs' ∧ ys = ys' ∧ zs = zs' := by
  have hzt : ('_' : Char) ∉ zs ++ tail := by
    intro hmem
    rcases List.mem_append.mp hmem with hmem | hmem
    · exact hzs hmem
    · exact htail hmem
  have hzt' : ('_' : Char) ∉ zs' ++ tail := by
    intro hmem
    rcases List.mem_append.mp hmem with hmem | hmem
    · exact hzs' hmem
    · exact htail hmem
  have h1 := split4 ps xs ys (zs ++ tail) hps hxs hys hzt
  have h2 := split4 qs xs' ys' (zs' ++ tail) hqs hxs' hys' hzt'
  have hsplit := congrArg (List.splitOn '_') h
  rw [h1, h2] at hsplit
  have e1 : ps = qs := by injection hsplit
  have rest1 : [xs, ys, zs ++ tail] = [xs', ys', zs' ++ tail] := by
    injection hsplit with _ h'
  have e2 : xs = xs' := by injection rest1
  have rest2 : [ys, zs ++ tail] = [ys', zs' ++ tail] := by
    injection rest1 with _ h'
  have e3 : ys = ys' := by injection rest2
  have rest3 : [zs ++ tail] = [zs' ++ tail] := by
    injection rest2 with _ h'
  have e4 : zs ++ tail = zs' ++ tail := by injection rest3
  exact ⟨e1, e2, e3, List.append_cancel_right e4⟩

theorem filename_data_eq (pfx : String) (i j zoom : Nat) :
    (pfx ++ "_" ++ toString i ++ "_" ++ toString j ++ "_" ++ toString zoom ++ ".png").data
      = pfx.data ++ '_' :: ((Nat.repr i).data ++ '_' :: ((Nat.repr j).data ++ '_' ::
          ((Nat.repr zoom).data ++ (".png" : String).data))) := by
  have hu : ("_" : String).data = ['_'] := rfl
  have hts : ∀ n : Nat, (toString n : String) = Nat.repr n := fun _ => rfl
  simp [hu, hts, List.append_assoc]

/-- Injectivity of the `{providerPrefix}_{x}_{y}_{z}.png` contract: equal
filenames force equal prefixes and equal tile indices. -/
theorem specFilename_inj (pfxA pfxB : String) (x y z x' y' z' : Nat)
    (hA : ('_' : Char) ∉ pfxA.data) (hB : ('_' : Char) ∉ pfxB.data)
    (h : pfxA ++ "_" ++ toString x ++ "_" ++ toString y ++ "_" ++ toString z ++ ".png" =
        pfxB ++ "_" ++ toString x' ++ "_" ++ toString y' ++ "_" ++ toString z' ++ ".png") :
    pfxA = pfxB ∧ x = x' ∧ y = y' ∧ z = z' := by
  have hd := congrArg String.data h
  rw [filename_data_eq, filename_data_eq] at hd
  obtain ⟨e1, e2, e3, e4⟩ := name_parts_inj _ _ _ _ _ _ _ _ _ hA hB
    (repr_no_underscore x) (repr_no_underscore x') (repr_no_underscore y)
    (repr_no_underscore y') (repr_no_underscore z) (repr_no_underscore z')
    (by decide) hd
  refine ⟨?_, ?_, ?_, ?_⟩
  · cases pfxA; cases pfxB; exact congrArg String.mk (by simpa using e1)
  · have := congrArg digitsVal e2
    rwa [repr_val, repr_val] at this
  · have := congrArg digitsVal e3
    rwa [repr_val, repr_val] at this
  · have := congrArg digitsVal e4
    rwa [repr_val, repr_val] at this

/-! ## Claim C8: URL templates, conversion flag, filename collision freedom -/

/-- C8: the resolver produces exactly the specification's URL templates and
`{prefix}_{x}_{y}_{z}.png` filenames, `needsConversion` holds exactly for the
Mapbox-satellite provider, and the filename map is injective across provider
kind and tile indices. -/
theorem C8_url_resolver (p p' : Nat) (token token' : String) (x y z x' y' z' : Nat)
    (hp : p ≤ 2) (hp' : p' ≤ 2) :
    getTileUrlAndFilename 0 token x y z =
      (specOsmUrl x y z, specFilename "osm" x y z, false) ∧
    getTileUrlAndFilename 1 token x y z =
      (specSatUrl token x y z, specFilename "sat" x y z, true) ∧
    getTileUrlAndFilename 2 token x y z =
      (specTerrainUrl token x y z, specFilename "terrain" x y z, false) ∧
    ((getTileUrlAndFilename p token x y z).2.2 = true ↔ p = 1) ∧
    ((getTileUrlAndFilename p token x y z).2.1 =
        (getTileUrlAndFilename p' token' x' y' z').2.1 →
      p = p' ∧ x = x' ∧ y = y' ∧ z = z') := by
  refine ⟨rfl, rfl, rfl, ?_, ?_⟩
  · interval_cases p <;> simp [getTileUrlAndFilename]
  · intro h
    have hpfx : ∀ q : Nat, q ≤ 2 → ∃ s : String, ('_' : Char) ∉ s.data ∧
        (∀ tok i j k, (getTileUrlAndFilename q tok i j k).2.1 =
          s ++ "_" ++ toString i ++ "_" ++ toString j ++ "_" ++ toString k ++ ".png") ∧
        ((s = "osm" ∧ q = 0) ∨ (s = "sat" ∧ q = 1) ∨ (s = "terrain" ∧ q = 2)) := by
      intro q hq
      interval_cases q
      · exact ⟨"osm", by decide, fun _ _ _ _ => rfl, Or.inl ⟨rfl, rfl⟩⟩
      · exact ⟨"sat", by decide, fun _ _ _ _ => rfl, Or.inr (Or.inl ⟨rfl, rfl⟩)⟩
      · exact ⟨"terrain", by decide, fun _ _ _ _ => rfl, Or.inr (Or.inr ⟨rfl, rfl⟩)⟩
    obtain ⟨s, hs, hsf, hd⟩ := hpfx p hp
    obtain ⟨s', hs', hsf', hd'⟩ := hpfx p' hp'
    rw [hsf token x y z, hsf' token' x' y' z'] at h
    obtain ⟨e1, e2, e3, e4⟩ := specFilename_inj s s' x y z x' y' z' hs hs' h
    refine ⟨?_, e2, e3, e4⟩
    -- the prefix determines the provider kind
    rcases hd with ⟨hsA, hqA⟩ | ⟨hsA, hqA⟩ | ⟨hsA, hqA⟩ <;>
      rcases hd' with ⟨hsB, hqB⟩ | ⟨hsB, hqB⟩ | ⟨hsB, hqB⟩ <;>
        subst hqA <;> subst hqB <;>
          first
            | rfl
            | (rw [hsA, hsB] at e1; exact absurd e1 (by decide))

/-- Witness for C8 at concrete providers and indices. -/
theorem C8_witness :
    (getTileUrlAndFilename 0 "tk" 3 4 5 =
      (specOsmUrl 3 4 5, specFilename "osm" 3 4 5, false) ∧
    getTileUrlAndFilename 1 "tk" 3 4 5 =
      (specSatUrl "tk" 3 4 5, specFilename "sat" 3 4 5, true) ∧
    getTileUrlAndFilename 2 "tk" 3 4 5 =
      (specTerrainUrl "tk" 3 4 5, specFilename "terrain" 3 4 5, false) ∧
    ((getTileUrlAndFilename 1 "tk" 3 4 5).2.2 = true ↔ (1 : Nat) = 1) ∧
    ((getTileUrlAndFilename 1 "tk" 3 4 5).2.1 =
        (getTileUrlAndFilename 2 "tk2" 6 7 8).2.1 →
      (1 : Nat) = 2 ∧ 3 = 6 ∧ 4 = 7 ∧ 5 = 8)) :=
  C8_url_resolver 1 2 "tk" "tk2" 3 4 5 6 7 8 (by norm_num) (by norm_num)

/-! ## Claim C5: retry bound, linear backoff, failure isolation -/

/-- C5: for every tile job and `retries = r ≥ 1` the fetcher makes at most
`r` attempts; the delay after the `k`-th failed non-final attempt is
`k × 1000` ms (linear, not exponential); a failure on the final attempt
produces a `Failed` outcome without an exception escaping the job boundary;
and the scheduler still produces an outcome for every job of the zoom level
(one tile's exhaustion never aborts its batch or the run). -/
theorem C5_retry_backoff_and_isolation (env : Env) (isSat : Bool) (retries : Nat)
    (envOf : Int × Int → Env) (existsOf : Int × Int → Bool) (force : Bool)
    (c : Nat) (p1 p2 : Int × Int) (_hr : 1 ≤ retries) (hc : 0 < c) :
    (download_image env isSat retries).attempts ≤ retries ∧
    (download_image env isSat retries).delays =
      (List.range ((download_image env isSat retries).attempts - 1)).map
        (fun k => 1000 * (k + 1)) ∧
    ((download_image env isSat retries).success = false →
      (processJob env isSat retries force false).outcome = Outcome.failed) ∧
    (fn_download_tiles_for_zoom envOf existsOf isSat retries force c p1 p2).flatten =
      (tileList p1 p2).map
        (fun t => processJob (envOf t) isSat retries force (existsOf t)) := by
  refine ⟨download_image_attempts_le env isSat retries,
    download_image_delays env isSat retries, ?_,
    scheduler_flatten envOf existsOf isSat retries force c p1 p2 hc⟩
  intro hfail
  simp [processJob, hfail]

/-- Witness for C5 at a concrete input: three always-failing attempts. -/
theorem C5_witness :
    (download_image envFail true 3).attempts ≤ 3 ∧
    (download_image envFail true 3).delays =
      (List.range ((download_image envFail true 3).attempts - 1)).map
        (fun k => 1000 * (k + 1)) ∧
    ((download_image envFail true 3).success = false →
      (processJob envFail true 3 false false).outcome = Outcome.failed) ∧
    (fn_download_tiles_for_zoom (fun _ => envFail) (fun _ => false) true 3 false 2
        (0, 0) (1, 1)).flatten =
      (tileList (0, 0) (1, 1)).map
        (fun t => processJob ((fun _ => envFail) t) true 3 false ((fun _ => false) t)) :=
  C5_retry_backoff_and_isolation envFail true 3 (fun _ => envFail) (fun _ => false)
    false 2 (0, 0) (1, 1) (by norm_num) (by norm_num)

/-! ## Claim C6: batching and the concurrency ceiling -/

/-- C6: with concurrency ceiling `C ≥ 1` and more than `C` jobs at a zoom
level, the jobs are partitioned into consecutive batches of size at most `C`
(the concatenation of the batches is the job list), at no instant are more
than `C` fetches in flight, and every job of an earlier batch completes
before any job of a later batch is dispatched. -/
theorem C6_concurrency_ceiling (c : Nat) (p1 p2 : Int × Int) (hc : 1 ≤ c)
    (_hN : c < (tileList p1 p2).length) :
    (chunks c (tileList p1 p2)).flatten = tileList p1 p2 ∧
    (∀ b ∈ chunks c (tileList p1 p2), b.length ≤ c) ∧
    (∀ pre suf, zoomTrace c (tileList p1 p2) = pre ++ suf →
      inFlight pre ≤ (c : Int)) ∧
    (∀ bs₁ bs₂ bs₃ b₁ b₂ x y pre suf,
      chunks c (tileList p1 p2) = bs₁ ++ b₁ :: bs₂ ++ b₂ :: bs₃ →
      x ∈ b₁ → y ∈ b₂ →
      zoomTrace c (tileList p1 p2) = pre ++ Ev.dispatch y :: suf →
      Ev.complete x ∈ pre) := by
  refine ⟨chunks_flatten c hc _, fun b hb => chunks_length_le c _ b hb, ?_, ?_⟩
  · intro pre suf hsplit
    have h := ceiling_flatMap c (chunks c (tileList p1 p2))
      (fun b hb => chunks_length_le c _ b hb) pre suf hsplit
    unfold inFlight
    omega
  · intro bs₁ bs₂ bs₃ b₁ b₂ x y pre suf hbs hx hy hsplit
    exact batch_barrier c hc (tileList p1 p2) (tileList_nodup p1 p2)
      bs₁ bs₂ bs₃ b₁ b₂ hbs x y hx hy pre suf hsplit

/-- Witness for C6: 4 jobs under a ceiling of 2. -/
theorem C6_witness :
    (chunks 2 (tileList (0, 0) (1, 1))).flatten = tileList (0, 0) (1, 1) ∧
    (∀ b ∈ chunks 2 (tileList (0, 0) (1, 1)), b.length ≤ 2) ∧
    (∀ pre suf, zoomTrace 2 (tileList (0, 0) (1, 1)) = pre ++ suf →
      inFlight pre ≤ (2 : Int)) ∧
    (∀ bs₁ bs₂ bs₃ b₁ b₂ x y pre suf,
      chunks 2 (tileList (0, 0) (1, 1)) = bs₁ ++ b₁ :: bs₂ ++ b₂ :: bs₃ →
      x ∈ b₁ → y ∈ b₂ →
      zoomTrace 2 (tileList (0, 0) (1, 1)) = pre ++ Ev.dispatch y :: suf →
      Ev.complete x ∈ pre) :=
  C6_concurrency_ceiling 2 (0, 0) (1, 1) (by norm_num) (by decide)

/-! ## Claim C7: skip logic -/

/-- C7: if the destination file exists and `force` is false the job is
recorded as `Skipped` with no fetch; if `force` is true the fetcher is
invoked (at least one attempt) regardless of file existence. -/
theorem C7_skip_logic (env : Env) (isSat : Bool) (retries : Nat)
    (force fileExists : Bool) (hr : 1 ≤ retries) :
    (fileExists = true → force = false →
      (processJob env isSat retries force fileExists).outcome = Outcome.skipped ∧
      (processJob env isSat retries force fileExists).fetcherCalls = 0) ∧
    (force = true → 1 ≤ (processJob env isSat retries force fileExists).fetcherCalls) := by
  constructor
  · intro hex hforce
    subst hex; subst hforce
    simp [processJob]
  · intro hforce
    subst hforce
    simp only [processJob, Bool.not_true, Bool.false_and, Bool.false_eq_true, if_false]
    exact download_image_attempts_pos env isSat retries hr

/-- Witness for C7 at concrete inputs. -/
theorem C7_witness :
    ((true : Bool) = true → (false : Bool) = false →
      (processJob envFail false 3 false true).outcome = Outcome.skipped ∧
      (processJob envFail false 3 false true).fetcherCalls = 0) ∧
    ((false : Bool) = true → 1 ≤ (processJob envFail false 3 false true).fetcherCalls) :=
  C7_skip_logic envFail false 3 false true (by norm_num)

/-! ## Claim C2: conversion failures re-enter the retry loop -/

/-- C2 counterexample: with a fetch that always succeeds and a conversion
that always fails and `retries = 2`, the second fetch attempt *is* made
(`attempts = 2`, not `1`), refuting that a decode/encode failure never
triggers an additional fetch attempt. -/
theorem C2_counterexample :
    (download_image envConvFail true 2).attempts = 2 ∧
    ¬(download_image envConvFail true 2).attempts = 1 := by
  decide

/-- C2 (amended): the JPEG→PNG re-encode is attempted exactly once per
successful fetch (once per attempt whose fetch succeeds), but a decode/encode
failure is handled by the same retry loop as a fetch failure: on a non-final
attempt it triggers the backoff delay and a further fetch attempt, and on the
final attempt the tile is recorded as `Failed`.  With every fetch succeeding
and every conversion failing, all `retries` attempts are made, each with one
conversion, and the job ends `Failed`. -/
theorem C2_conversion_failure_retries (env : Env) (retries : Nat)
    (_hr : 1 ≤ retries) (hf : ∀ k, env.fetchOk k = true)
    (hc : ∀ k, env.convertOk k = false) :
    (download_image env true retries).attempts = retries ∧
    (download_image env true retries).conversions = retries ∧
    (download_image env true retries).success = false ∧
    (processJob env true retries false false).outcome = Outcome.failed := by
  have h := dlAux_all_fail env hf hc retries 1
  unfold download_image
  rw [h]
  refine ⟨rfl, rfl, rfl, ?_⟩
  simp [processJob, download_image, h]

/-! ## Claim C3: the tile range calculation refines the spec's description -/

/-- C3: with pre-sorted longitudes, `fn_convertFromLngLatToPoints` computes
exactly the spec's pipeline — project each corner with clamped latitude,
scale by `zoomScale`, divide by 256 and floor, then swap the two `y` values
if needed — and the returned inclusive range satisfies `min.y ≤ max.y` and
`min.x ≤ max.x`. -/
theorem C3_tile_range_refines_spec (lat1 lng1 lat2 lng2 : ℝ) (zoom : ℕ)
    (hlng : lng1 ≤ lng2) :
    fn_convertFromLngLatToPoints lat1 lng1 lat2 lng2 zoom =
      specTileRange lat1 lng1 lat2 lng2 zoom ∧
    (fn_convertFromLngLatToPoints lat1 lng1 lat2 lng2 zoom).1.2 ≤
      (fn_convertFromLngLatToPoints lat1 lng1 lat2 lng2 zoom).2.2 ∧
    (fn_convertFromLngLatToPoints lat1 lng1 lat2 lng2 zoom).1.1 ≤
      (fn_convertFromLngLatToPoints lat1 lng1 lat2 lng2 zoom).2.1 := by
  refine ⟨?_, ?_, ?_⟩
  · unfold fn_convertFromLngLatToPoints specTileRange
    rw [if_neg (not_lt.mpr hlng), if_neg (not_lt.mpr hlng)]
    by_cases hlat : lat1 > lat2
    · rw [if_pos hlat, if_pos hlat]
      simp only [Prod.mk.injEq, transform, project, zoomScale, true_and,
        eq_self_iff_true]
      constructor <;> (split_ifs <;> omega)
    · rw [if_neg hlat, if_neg hlat]
  · unfold fn_convertFromLngLatToPoints
    dsimp only
    split_ifs <;> omega
  · unfold fn_convertFromLngLatToPoints
    have hx : (transform (project (if lat1 > lat2 then lat2 else lat1)
          (if lng1 > lng2 then lng2 else lng1)) (zoomScale zoom)).x / 256 ≤
        (transform (project (if lat1 > lat2 then lat1 else lat2)
          (if lng1 > lng2 then lng1 else lng2)) (zoomScale zoom)).x / 256 := by
      have hle : (if lng1 > lng2 then lng2 else lng1) ≤
          (if lng1 > lng2 then lng1 else lng2) := by
        split_ifs <;> linarith
      simp only [transform, project, zoomScale]
      have hpi : (0 : ℝ) < Real.pi / 180 := by positivity
      gcongr
      norm_num [EARTH_RADIUS]
    simpa using Int.floor_le_floor hx

/-- Witness for C3 at a concrete bounding box and zoom. -/
theorem C3_witness :
    fn_convertFromLngLatToPoints 1 2 3 4 5 = specTileRange 1 2 3 4 5 ∧
    (fn_convertFromLngLatToPoints 1 2 3 4 5).1.2 ≤
      (fn_convertFromLngLatToPoints 1 2 3 4 5).2.2 ∧
    (fn_convertFromLngLatToPoints 1 2 3 4 5).1.1 ≤
      (fn_convertFromLngLatToPoints 1 2 3 4 5).2.1 :=
  C3_tile_range_refines_spec 1 2 3 4 5 (by norm_num)

/-! ## Claim C9: projection round trip and clamping -/

/-- The Gudermannian round trip behind `unproject ∘ project`. -/
theorem gudermann_roundtrip (φ : ℝ) (h1 : -(Real.pi/2) < φ) (h2 : φ < Real.pi/2) :
    2 * Real.arctan (Real.exp (Real.log ((1 + Real.sin φ) / (1 - Real.sin φ)) / 2)) -
      Real.pi/2 = φ := by
  have hcos : 0 < Real.cos φ := Real.cos_pos_of_mem_Ioo ⟨h1, h2⟩
  have hpyth := Real.sin_sq_add_cos_sq φ
  have hsle := Real.neg_one_le_sin φ
  have hsge := Real.sin_le_one φ
  have hs1 : Real.sin φ < 1 := by nlinarith
  have hs2 : -1 < Real.sin φ := by nlinarith
  have hu : 0 < (1 + Real.sin φ) / (1 - Real.sin φ) := by
    apply div_pos <;> linarith
  have hψ1 : 0 < Real.pi/4 + φ/2 := by linarith [Real.pi_pos]
  have hψ2 : Real.pi/4 + φ/2 < Real.pi/2 := by linarith
  have hsψ : 0 < Real.sin (Real.pi/4 + φ/2) :=
    Real.sin_pos_of_pos_of_lt_pi hψ1 (by linarith [Real.pi_pos])
  have hcψ : 0 < Real.cos (Real.pi/4 + φ/2) :=
    Real.cos_pos_of_mem_Ioo ⟨by linarith [Real.pi_pos], hψ2⟩
  have hφψ : φ = 2*(Real.pi/4 + φ/2) - Real.pi/2 := by ring
  have hsin : Real.sin φ = -Real.cos (2*(Real.pi/4 + φ/2)) := by
    nth_rewrite 1 [hφψ]
    rw [Real.sin_sub_pi_div_two]
  have hcosφ : Real.cos φ = Real.sin (2*(Real.pi/4 + φ/2)) := by
    nth_rewrite 1 [hφψ]
    rw [Real.cos_sub_pi_div_two]
  have hexp : Real.exp (Real.log ((1 + Real.sin φ) / (1 - Real.sin φ)) / 2)
      = Real.sqrt ((1 + Real.sin φ) / (1 - Real.sin φ)) := by
    rw [Real.exp_half, Real.exp_log hu]
  have hne1 : (1 : ℝ) - Real.sin φ ≠ 0 := by linarith
  have hnec : Real.cos φ ≠ 0 := ne_of_gt hcos
  have hsq : (1 + Real.sin φ) / (1 - Real.sin φ) = ((1 + Real.sin φ)/Real.cos φ)^2 := by
    field_simp
    linear_combination (1 + Real.sin φ) * hpyth
  have hsqrt : Real.sqrt ((1 + Real.sin φ) / (1 - Real.sin φ))
      = (1 + Real.sin φ) / Real.cos φ := by
    rw [hsq]
    exact Real.sqrt_sq (div_nonneg (by linarith) hcos.le)
  have hp := Real.sin_sq_add_cos_sq (Real.pi/4 + φ/2)
  have hsin' : Real.sin φ = 1 - 2 * Real.cos (Real.pi/4 + φ/2)^2 := by
    rw [hsin, Real.cos_two_mul]; ring
  have hcos' : Real.cos φ = 2 * Real.sin (Real.pi/4 + φ/2) * Real.cos (Real.pi/4 + φ/2) := by
    rw [hcosφ, Real.sin_two_mul]
  have htan : (1 + Real.sin φ) / Real.cos φ = Real.tan (Real.pi/4 + φ/2) := by
    rw [Real.tan_eq_sin_div_cos, hsin', hcos']
    set s := Real.sin (Real.pi/4 + φ/2) with hsdef
    set c := Real.cos (Real.pi/4 + φ/2) with hcdef
    rw [div_eq_div_iff (by positivity) (ne_of_gt hcψ)]
    linear_combination (-(2 * c)) * hp
  rw [hexp, hsqrt, htan, Real.arctan_tan (by linarith) hψ2]
  ring

/-- C9: for latitudes within the Mercator limit, `unproject ∘ project` is the
identity (exactly, over real arithmetic); beyond the limit, `project`
coincides with its value at the clamp boundary of the same sign. -/
theorem C9_roundtrip_and_clamp (lat lng : ℝ) :
    (|lat| ≤ 85.0511287798 → unproject (project lat lng) = ⟨lat, lng⟩) ∧
    (85.0511287798 < lat → project lat lng = project 85.0511287798 lng) ∧
    (lat < -85.0511287798 → project lat lng = project (-85.0511287798) lng) := by
  have hM : MAX_LATITUDE = (85.0511287798 : ℝ) := rfl
  have hM0 : (0 : ℝ) ≤ MAX_LATITUDE := by rw [hM]; norm_num
  refine ⟨?_, ?_, ?_⟩
  · intro h
    obtain ⟨hge, hle⟩ := abs_le.mp h
    have hclamp : max (min MAX_LATITUDE lat) (-MAX_LATITUDE) = lat := by
      rw [min_eq_right (by rw [hM]; exact hle), max_eq_left (by rw [hM]; exact hge)]
    have hpi := Real.pi_pos
    have h90 : lat < 90 := lt_of_le_of_lt hle (by norm_num)
    have h90' : (-90 : ℝ) < lat := lt_of_lt_of_le (by norm_num) hge
    have hφ2 : lat * (Real.pi/180) < Real.pi/2 := by nlinarith
    have hφ1 : -(Real.pi/2) < lat * (Real.pi/180) := by nlinarith
    have hR : (EARTH_RADIUS : ℝ) ≠ 0 := by norm_num [EARTH_RADIUS]
    unfold unproject project
    dsimp only
    rw [hclamp]
    have hy : EARTH_RADIUS * Real.log ((1 + Real.sin (lat * (Real.pi/180))) /
          (1 - Real.sin (lat * (Real.pi/180)))) / 2 / EARTH_RADIUS
        = Real.log ((1 + Real.sin (lat * (Real.pi/180))) /
          (1 - Real.sin (lat * (Real.pi/180)))) / 2 := by
      field_simp
      ring
    simp only [GeoPoint.mk.injEq]
    constructor
    · rw [hy, gudermann_roundtrip (lat * (Real.pi/180)) hφ1 hφ2]
      field_simp
    · field_simp
  · intro hgt
    unfold project
    dsimp only
    rw [hM, min_eq_left hgt.le, min_self]
  · intro hlt
    have hlatle : lat ≤ (85.0511287798 : ℝ) := hlt.le.trans (by norm_num)
    unfold project
    dsimp only
    rw [hM, min_eq_right hlatle, max_eq_right hlt.le,
      min_eq_right (by norm_num : (-85.0511287798 : ℝ) ≤ 85.0511287798), max_self]

/-- Witness for C9: round trip at `(30, 45)`, clamping at `±86`. -/
theorem C9_witness :
    unproject (project 30 45) = ⟨30, 45⟩ ∧
    project 86 7 = project 85.0511287798 7 ∧
    project (-86) 7 = project (-85.0511287798) 7 :=
  ⟨(C9_roundtrip_and_clamp 30 45).1 (by rw [abs_of_nonneg] <;> norm_num),
    (C9_roundtrip_and_clamp 86 7).2.1 (by norm_num),
    (C9_roundtrip_and_clamp (-86) 7).2.2 (by norm_num)⟩

/-! ## Claim C1: the progress total is added twice -/

/-- The degenerate bounding box at the origin produces the single tile
`(0, 0)` at zoom 0. -/
theorem fn_convert_zero :
    fn_convertFromLngLatToPoints 0 0 0 0 0 = ((0, 0), (0, 0)) := by
  unfold fn_convertFromLngLatToPoints project transform zoomScale
  have hclamp : max (min MAX_LATITUDE 0) (-MAX_LATITUDE) = 0 := by
    rw [min_eq_right (by rw [show MAX_LATITUDE = (85.0511287798 : ℝ) from rfl]; norm_num),
      max_eq_left (by rw [show MAX_LATITUDE = (85.0511287798 : ℝ) from rfl]; norm_num)]
  dsimp only
  simp only [gt_iff_lt, lt_self_iff_false, if_false]
  rw [hclamp]
  norm_num [Real.sin_zero, Real.log_one, EARTH_RADIUS]

/-- C1 is violated by the code: on the one-tile run (degenerate bounding box
at the origin, zoom range 0..0) the run ends with `totalTiles = 2` but
`downloadedTiles = 1`: `main` adds the per-zoom tile count to `totalTiles`
once in its pre-pass (lines 306-309) and `fn_download_tiles_for_zoom` adds
the same count again (line 171), while `downloadedTiles` is bumped exactly
once per job — so the final reported progress is 50%, not 100%. -/
theorem C1_total_double_counted :
    (mainCounters 0 0 0 0 0 0).totalTiles = 2 ∧
    (mainCounters 0 0 0 0 0 0).downloadedTiles = 1 ∧
    (mainCounters 0 0 0 0 0 0).totalTiles ≠ (mainCounters 0 0 0 0 0 0).downloadedTiles := by
  have h2 : (tileList (0 : Int × Int) (0 : Int × Int)).length = 1 := by decide
  unfold mainCounters zoomLevels
  rw [show List.range (0 + 1 - 0) = [0] from rfl]
  simp only [List.map_cons, List.map_nil, List.sum_cons, List.sum_nil, zero_add,
    fn_convert_zero, tileCountFormula]
  norm_num [h2]

/-! ## High-precision sine bounds (for claim C4)

The whole-world tile range at zoom 0 comes down to two sharp numeric facts:
`k·R·π < 1/2` for the longitude axis (`k` the transform constant, `R` the
Earth radius) and `k·R·log((1+s)/(1−s))/2 < 1/2` for the latitude axis with
`s = sin(85.0511287798·π/180)`.  Both are decided with about 14 significant
digits to spare, so degree-15 Taylor bounds on `sin`/`cos` are derived from
`Complex.exp_bound`. -/

set_option maxHeartbeats 1000000 in
theorem sumI16 (x : ℝ) :
    (∑ m ∈ Finset.range 16, ((x : ℂ) * Complex.I) ^ m / (Nat.factorial m)) =
      ((1 - x^2/2 + x^4/24 - x^6/720 + x^8/40320 - x^10/3628800 + x^12/479001600
        - x^14/87178291200 : ℝ) : ℂ)
      + ((x - x^3/6 + x^5/120 - x^7/5040 + x^9/362880 - x^11/39916800 + x^13/6227020800
        - x^15/1307674368000 : ℝ) : ℂ) * Complex.I := by
  have h2 : Complex.I^2 = -1 := Complex.I_sq
  have h3 : Complex.I^3 = -Complex.I := by
    rw [show (3:ℕ) = 2+1 from rfl, pow_succ, h2]
    simp [Complex.I_mul_I]
  have h4 : Complex.I^4 = 1 := by
    rw [show (4:ℕ) = 3+1 from rfl, pow_succ, h3]
    simp [Complex.I_mul_I]
  have h5 : Complex.I^5 = Complex.I := by
    rw [show (5:ℕ) = 4+1 from rfl, pow_succ, h4]
    simp [Complex.I_mul_I]
  have h6 : Complex.I^6 = -1 := by
    rw [show (6:ℕ) = 5+1 from rfl, pow_succ, h5]
    simp [Complex.I_mul_I]
  have h7 : Complex.I^7 = -Complex.I := by
    rw [show (7:ℕ) = 6+1 from rfl, pow_succ, h6]
    simp [Complex.I_mul_I]
  have h8 : Complex.I^8 = 1 := by
    rw [show (8:ℕ) = 7+1 from rfl, pow_succ, h7]
    simp [Complex.I_mul_I]
  have h9 : Complex.I^9 = Complex.I := by
    rw [show (9:ℕ) = 8+1 from rfl, pow_succ, h8]
    simp [Complex.I_mul_I]
  have h10 : Complex.I^10 = -1 := by
    rw [show (10:ℕ) = 9+1 from rfl, pow_succ, h9]
    simp [Complex.I_mul_I]
  have h11 : Complex.I^11 = -Complex.I := by
    rw [show (11:ℕ) = 10+1 from rfl, pow_succ, h10]
    simp [Complex.I_mul_I]
  have h12 : Complex.I^12 = 1 := by
    rw [show (12:ℕ) = 11+1 from rfl, pow_succ, h11]
    simp [Complex.I_mul_I]
  have h13 : Complex.I^13 = Complex.I := by
    rw [show (13:ℕ) = 12+1 from rfl, pow_succ, h12]
    simp [Complex.I_mul_I]
  have h14 : Complex.I^14 = -1 := by
    rw [show (14:ℕ) = 13+1 from rfl, pow_succ, h13]
    simp [Complex.I_mul_I]
  have h15 : Complex.I^15 = -Complex.I := by
    rw [show (15:ℕ) = 14+1 from rfl, pow_succ, h14]
    simp [Complex.I_mul_I]
  simp only [Finset.sum_range_succ, Finset.sum_range_zero, Nat.factorial, mul_pow]
  push_cast
  ring_nf
  simp only [h2, h3, h4, h5, h6, h7, h8, h9, h10, h11, h12, h13, h14, h15]
  ring

/-- Degree-14 Taylor bound for cosine on `[-1, 1]`, with remainder
`|x|^16 · 17/(16!·16)`. -/
theorem cos_taylor_bound (x : ℝ) (hx : |x| ≤ 1) :
    |Real.cos x - (1 - x^2/2 + x^4/24 - x^6/720 + x^8/40320 - x^10/3628800
      + x^12/479001600 - x^14/87178291200)| ≤ |x|^16 * (17/334764638208000) := by
  have habs : Complex.abs ((x : ℂ) * Complex.I) = |x| := by
    simp [map_mul, Complex.abs_I, Complex.abs_ofReal]
  have hb := @Complex.exp_bound ((x : ℂ) * Complex.I)
    (by rw [habs]; exact hx) 16 (by norm_num)
  rw [habs, sumI16] at hb
  have hfact : (Nat.factorial 16) = 20922789888000 := rfl
  have hre : (Complex.exp ((x : ℂ) * Complex.I) -
      (((1 - x^2/2 + x^4/24 - x^6/720 + x^8/40320 - x^10/3628800 + x^12/479001600
        - x^14/87178291200 : ℝ) : ℂ)
      + ((x - x^3/6 + x^5/120 - x^7/5040 + x^9/362880 - x^11/39916800 + x^13/6227020800
        - x^15/1307674368000 : ℝ) : ℂ) * Complex.I)).re
      = Real.cos x - (1 - x^2/2 + x^4/24 - x^6/720 + x^8/40320 - x^10/3628800
        + x^12/479001600 - x^14/87178291200) := by
    simp [Complex.sub_re, Complex.add_re, Complex.mul_re, ← Complex.ofReal_pow,
      Complex.ofReal_re, Complex.ofReal_im, Complex.I_re, Complex.I_im,
      Complex.exp_ofReal_mul_I_re]
  calc |Real.cos x - (1 - x^2/2 + x^4/24 - x^6/720 + x^8/40320 - x^10/3628800
        + x^12/479001600 - x^14/87178291200)|
      = |(Complex.exp ((x : ℂ) * Complex.I) -
          (((1 - x^2/2 + x^4/24 - x^6/720 + x^8/40320 - x^10/3628800 + x^12/479001600
            - x^14/87178291200 : ℝ) : ℂ)
          + ((x - x^3/6 + x^5/120 - x^7/5040 + x^9/362880 - x^11/39916800 + x^13/6227020800
            - x^15/1307674368000 : ℝ) : ℂ) * Complex.I)).re| := by rw [hre]
    _ ≤ Complex.abs (Complex.exp ((x : ℂ) * Complex.I) -
          (((1 - x^2/2 + x^4/24 - x^6/720 + x^8/40320 - x^10/3628800 + x^12/479001600
            - x^14/87178291200 : ℝ) : ℂ)
          + ((x - x^3/6 + x^5/120 - x^7/5040 + x^9/362880 - x^11/39916800 + x^13/6227020800
            - x^15/1307674368000 : ℝ) : ℂ) * Complex.I)) := Complex.abs_re_le_abs _
    _ ≤ |x| ^ 16 * ((Nat.succ 16 : ℝ) * ((Nat.factorial 16 : ℝ) * (16 : ℕ))⁻¹) := hb
    _ = |x|^16 * (17/334764638208000) := by
        rw [hfact]
        norm_num

/-- Degree-15 Taylor bound for sine on `[-1, 1]`, with remainder
`|x|^16 · 17/(16!·16)`. -/
theorem sin_taylor_bound (x : ℝ) (hx : |x| ≤ 1) :
    |Real.sin x - (x - x^3/6 + x^5/120 - x^7/5040 + x^9/362880 - x^11/39916800
      + x^13/6227020800 - x^15/1307674368000)| ≤ |x|^16 * (17/334764638208000) := by
  have habs : Complex.abs ((x : ℂ) * Complex.I) = |x| := by
    simp [map_mul, Complex.abs_I, Complex.abs_ofReal]
  have hb := @Complex.exp_bound ((x : ℂ) * Complex.I)
    (by rw [habs]; exact hx) 16 (by norm_num)
  rw [habs, sumI16] at hb
  have hfact : (Nat.factorial 16) = 20922789888000 := rfl
  have him : (Complex.exp ((x : ℂ) * Complex.I) -
      (((1 - x^2/2 + x^4/24 - x^6/720 + x^8/40320 - x^10/3628800 + x^12/479001600
        - x^14/87178291200 : ℝ) : ℂ)
      + ((x - x^3/6 + x^5/120 - x^7/5040 + x^9/362880 - x^11/39916800 + x^13/6227020800
        - x^15/1307674368000 : ℝ) : ℂ) * Complex.I)).im
      = Real.sin x - (x - x^3/6 + x^5/120 - x^7/5040 + x^9/362880 - x^11/39916800
        + x^13/6227020800 - x^15/1307674368000) := by
    simp [Complex.sub_im, Complex.add_im, Complex.mul_im, ← Complex.ofReal_pow,
      Complex.ofReal_re, Complex.ofReal_im, Complex.I_re, Complex.I_im,
      Complex.exp_ofReal_mul_I_im]
  calc |Real.sin x - (x - x^3/6 + x^5/120 - x^7/5040 + x^9/362880 - x^11/39916800
        + x^13/6227020800 - x^15/1307674368000)|
      = |(Complex.exp ((x : ℂ) * Complex.I) -
          (((1 - x^2/2 + x^4/24 - x^6/720 + x^8/40320 - x^10/3628800 + x^12/479001600
            - x^14/87178291200 : ℝ) : ℂ)
          + ((x - x^3/6 + x^5/120 - x^7/5040 + x^9/362880 - x^11/39916800 + x^13/6227020800
            - x^15/1307674368000 : ℝ) : ℂ) * Complex.I)).im| := by rw [him]
    _ ≤ Complex.abs (Complex.exp ((x : ℂ) * Complex.I) -
          (((1 - x^2/2 + x^4/24 - x^6/720 + x^8/40320 - x^10/3628800 + x^12/479001600
            - x^14/87178291200 : ℝ) : ℂ)
          + ((x - x^3/6 + x^5/120 - x^7/5040 + x^9/362880 - x^11/39916800 + x^13/6227020800
            - x^15/1307674368000 : ℝ) : ℂ) * Complex.I)) := Complex.abs_im_le_abs _
    _ ≤ |x| ^ 16 * ((Nat.succ 16 : ℝ) * ((Nat.factorial 16 : ℝ) * (16 : ℕ))⁻¹) := hb
    _ = |x|^16 * (17/334764638208000) := by
        rw [hfact]
        norm_num

/-- Numeric corollary: `sin(3/4) ≤ 0.681638760023334655`. -/
theorem sin34_le : Real.sin (3/4 : ℝ) ≤ 136327752004666931/200000000000000000 := by
  have h := (abs_le.mp (sin_taylor_bound (3/4) (by rw [abs_le]; norm_num))).2
  rw [abs_of_nonneg (by norm_num : (0:ℝ) ≤ 3/4)] at h
  norm_num at h
  linarith

/-- Numeric corollary: `cos(3/4) ≤ 0.731688868873820918`. -/
theorem cos34_le : Real.cos (3/4 : ℝ) ≤ 365844434436910459/500000000000000000 := by
  have h := (abs_le.mp (cos_taylor_bound (3/4) (by rw [abs_le]; norm_num))).2
  rw [abs_of_nonneg (by norm_num : (0:ℝ) ≤ 3/4)] at h
  norm_num at h
  linarith

/-- Numeric upper bound on `sin b` where `b = θU - 3/4` and
`θU = 85.0511287798·πU/180`, `πU` the 20-digit upper bound on `π`. -/
theorem sinb_le :
    Real.sin (66098000677069557743983630759453/90000000000000000000000000000000 : ℝ)
      ≤ 134031687198233253/200000000000000000 := by
  have h := (abs_le.mp (sin_taylor_bound
    (66098000677069557743983630759453/90000000000000000000000000000000)
    (by rw [abs_le]; norm_num))).2
  rw [abs_of_nonneg (by norm_num :
    (0:ℝ) ≤ 66098000677069557743983630759453/90000000000000000000000000000000)] at h
  norm_num at h
  linarith

/-- Numeric upper bound on `cos b` for the same `b`. -/
theorem cosb_le :
    Real.cos (66098000677069557743983630759453/90000000000000000000000000000000 : ℝ)
      ≤ 148443614974827989/200000000000000000 := by
  have h := (abs_le.mp (cos_taylor_bound
    (66098000677069557743983630759453/90000000000000000000000000000000)
    (by rw [abs_le]; norm_num))).2
  rw [abs_of_nonneg (by norm_num :
    (0:ℝ) ≤ 66098000677069557743983630759453/90000000000000000000000000000000)] at h
  norm_num at h
  linarith

/-- `sin θU ≤ 0.996272076220740674` via the addition formula at `θU = 3/4 + b`. -/
theorem sinThetaU_le :
    Real.sin (133598000677069557743983630759453/90000000000000000000000000000000 : ℝ)
      ≤ 498136038110370337/500000000000000000 := by
  have hθ : (133598000677069557743983630759453/90000000000000000000000000000000 : ℝ)
      = 3/4 + 66098000677069557743983630759453/90000000000000000000000000000000 := by
    norm_num
  rw [hθ, Real.sin_add]
  have hπ3 := Real.pi_gt_three
  have hs34 : (0:ℝ) ≤ Real.sin (3/4) :=
    Real.sin_nonneg_of_nonneg_of_le_pi (by norm_num) (by linarith)
  have hc34 : (0:ℝ) ≤ Real.cos (3/4) :=
    Real.cos_nonneg_of_mem_Icc ⟨by linarith, by linarith⟩
  have hsb : (0:ℝ) ≤
      Real.sin (66098000677069557743983630759453/90000000000000000000000000000000) :=
    Real.sin_nonneg_of_nonneg_of_le_pi (by norm_num) (by norm_num; linarith)
  have hcb : (0:ℝ) ≤
      Real.cos (66098000677069557743983630759453/90000000000000000000000000000000) :=
    Real.cos_nonneg_of_mem_Icc ⟨by norm_num; linarith, by norm_num; linarith⟩
  have h1 : Real.sin (3/4)
        * Real.cos (66098000677069557743983630759453/90000000000000000000000000000000)
      ≤ (136327752004666931/200000000000000000 : ℝ) * (148443614974827989/200000000000000000) :=
    mul_le_mul sin34_le cosb_le hcb (by norm_num)
  have h2 : Real.cos (3/4)
        * Real.sin (66098000677069557743983630759453/90000000000000000000000000000000)
      ≤ (365844434436910459/500000000000000000 : ℝ) * (134031687198233253/200000000000000000) :=
    mul_le_mul cos34_le sinb_le hsb (by norm_num)
  have hfin : (136327752004666931/200000000000000000 : ℝ) * (148443614974827989/200000000000000000)
      + (365844434436910459/500000000000000000 : ℝ) * (134031687198233253/200000000000000000)
      ≤ 498136038110370337/500000000000000000 := by norm_num
  linarith

/-- The sine of the clamped maximal latitude (in radians) is at most
`0.996272076220740674`: monotonicity of `sin` on `[0, π/2]` against `θU`. -/
theorem sinM_le : Real.sin (85.0511287798 * (Real.pi/180))
    ≤ 498136038110370337/500000000000000000 := by
  have hπu := Real.pi_lt_d20
  have hπ3 := Real.pi_gt_three
  have hθle : (85.0511287798:ℝ) * (Real.pi/180)
      ≤ 133598000677069557743983630759453/90000000000000000000000000000000 := by
    norm_num
    linarith
  have h1 : -(Real.pi/2) ≤ (85.0511287798:ℝ) * (Real.pi/180) := by
    norm_num
    linarith
  have h2 : (133598000677069557743983630759453/90000000000000000000000000000000 : ℝ)
      ≤ Real.pi/2 := by linarith
  exact le_trans (Real.sin_le_sin_of_le_of_le_pi_div_two h1 h2 hθle) sinThetaU_le

/-- The sine of the maximal latitude is nonnegative. -/
theorem sinM_nonneg : 0 ≤ Real.sin ((85.0511287798:ℝ) * (Real.pi/180)) := by
  have hπ3 := Real.pi_gt_three
  apply Real.sin_nonneg_of_nonneg_of_le_pi
  · positivity
  · norm_num
    linarith

/-- The Mercator `y`-integrand bound: for `0 ≤ s ≤ 0.996272076220740674`,
`log((1+s)/(1-s)) < 10^23 / (2495320233665337·6378137)`, via a 20-term
lower partial sum of `exp` at one eighth of the target and squaring thrice. -/
theorem logW_lt (s : ℝ) (h0 : 0 ≤ s) (hS : s ≤ 498136038110370337/500000000000000000) :
    Real.log ((1 + s) / (1 - s)) < 100000000000000000000000/15915494309189531537169 := by
  set y : ℝ := 100000000000000000000000/127323954473516252297352 with hy
  have hy0 : (0:ℝ) ≤ y := by rw [hy]; norm_num
  have hsum := Real.sum_le_exp_of_nonneg hy0 20
  have hLq : (54832001268450391933/25000000000000000000 : ℝ)
      ≤ ∑ i ∈ Finset.range 20, y ^ i / Nat.factorial i := by
    simp only [Finset.sum_range_succ, Finset.sum_range_zero, Nat.factorial]
    rw [hy]
    norm_num
  have hexp : (54832001268450391933/25000000000000000000 : ℝ) ≤ Real.exp y :=
    le_trans hLq hsum
  have hpow : ((54832001268450391933/25000000000000000000 : ℝ))^8 ≤ Real.exp y ^ 8 :=
    pow_le_pow_left₀ (by norm_num) hexp 8
  have hexp8 : Real.exp y ^ 8 = Real.exp (8 * y) := by
    rw [← Real.exp_nat_mul]
    norm_num
  have h8y : (8:ℝ) * y = 100000000000000000000000/15915494309189531537169 := by
    rw [hy]; norm_num
  have hW_le : (1 + s)/(1 - s)
      ≤ (1 + 498136038110370337/500000000000000000)
        / (1 - 498136038110370337/500000000000000000) :=
    div_le_div₀ (by norm_num) (by linarith) (by norm_num) (by linarith)
  have hWU_lt : ((1 + 498136038110370337/500000000000000000)
      / (1 - 498136038110370337/500000000000000000) : ℝ)
      < ((54832001268450391933/25000000000000000000 : ℝ))^8 := by norm_num
  have hWpos : (0:ℝ) < (1 + s)/(1 - s) := div_pos (by linarith) (by nlinarith)
  have hlt : (1 + s)/(1 - s)
      < Real.exp (100000000000000000000000/15915494309189531537169) := by
    rw [← h8y, ← hexp8]
    linarith
  have hfin := Real.log_lt_log hWpos hlt
  rwa [Real.log_exp] at hfin

/-- C4: for the whole-world bounding box — corners at latitude
`±85.0511287798` (`±MAX_LATITUDE`) and longitude `±180` — at zoom 0,
`fn_convertFromLngLatToPoints` (lines 81-103) returns the single tile
`(0,0)`: both the min and the max corner are `(0,0)`.  This rests on the
two sharp inequalities `k·R·π < 1/2` and
`k·R·log((1+sin θ)/(1-sin θ)) < 1` for `k = 2.495320233665337e-8`,
`R = 6378137` and `θ` the maximal latitude in radians. -/
theorem C4_whole_world_zoom0 :
    fn_convertFromLngLatToPoints (-85.0511287798) (-180) 85.0511287798 180 0
      = ((0, 0), (0, 0)) := by
  have hpu := Real.pi_lt_d20
  have hp0 := Real.pi_pos
  have hs0 := sinM_nonneg
  have hsS := sinM_le
  have hlog := logW_lt _ hs0 hsS
  have hlog0 : 0 ≤ Real.log ((1 + Real.sin ((85.0511287798:ℝ) * (Real.pi/180))) /
      (1 - Real.sin ((85.0511287798:ℝ) * (Real.pi/180)))) :=
    Real.log_nonneg ((one_le_div (by linarith)).mpr (by linarith))
  simp only [fn_convertFromLngLatToPoints, project, transform, zoomScale, MAX_LATITUDE,
    EARTH_RADIUS]
  norm_num at hs0 hsS hlog hlog0 hpu ⊢
  have hrel : Real.log ((1 + -Real.sin (425255643899/5000000000 * (Real.pi/180))) /
        (1 + Real.sin (425255643899/5000000000 * (Real.pi/180))))
      = -Real.log ((1 + Real.sin (425255643899/5000000000 * (Real.pi/180))) /
        (1 - Real.sin (425255643899/5000000000 * (Real.pi/180)))) := by
    rw [← Real.log_inv]
    congr 1
    rw [inv_div]
    ring
  have hy1 : ⌊-(2495320233665337/100000000000000000000000 *
        (6378137 * Real.log ((1 + -Real.sin (425255643899/5000000000 * (Real.pi/180))) /
          (1 + Real.sin (425255643899/5000000000 * (Real.pi/180)))) / 2)) + 1/2⌋ = (0:ℤ) := by
    rw [hrel, Int.floor_eq_zero_iff, Set.mem_Ico]
    constructor
    · linarith
    · linarith
  have hy2 : ⌊-(2495320233665337/100000000000000000000000 *
        (6378137 * Real.log ((1 + Real.sin (425255643899/5000000000 * (Real.pi/180))) /
          (1 - Real.sin (425255643899/5000000000 * (Real.pi/180)))) / 2)) + 1/2⌋ = (0:ℤ) := by
    rw [Int.floor_eq_zero_iff, Set.mem_Ico]
    constructor
    · linarith
    · linarith
  refine ⟨⟨⟨by linarith, by linarith⟩, ?_⟩, ⟨by linarith, by linarith⟩, ?_⟩
  · rw [hy2, hy1]
    norm_num
  · rw [hy2, hy1]
    norm_num

/-! ## Claim C10: a coordinate equal to 0 is treated as missing -/

/-- C10: a coordinate argument whose value is the number `0` is falsy in
JavaScript, so the required-argument check `if (!myArgs[arg])` reports it as
missing and the run aborts pre-flight with a fatal error; the same truthiness
conjunct `myArgs[arg] && (...)` also skips the range check for that value. -/
theorem C10_zero_coordinate_treated_missing (a : Args) (zoomBad : Bool)
    (name : String) (v : JSVal) (hmem : (name, v) ∈ requiredPairs a)
    (_hcoord : name ∈ (["lat1", "lng1", "lat2", "lng2"] : List String))
    (hv : v = JSVal.num 0) :
    truthy v = false ∧ name ∈ missingArgs a ∧
    abortsPreflight a zoomBad = true ∧
    latRangeBad v = false ∧ lngRangeBad v = false := by
  subst hv
  have ht : truthy (JSVal.num 0) = false := by decide
  have hmiss : name ∈ missingArgs a := by
    unfold missingArgs
    refine List.mem_map.mpr ⟨(name, JSVal.num 0), ?_, rfl⟩
    refine List.mem_filter.mpr ⟨hmem, ?_⟩
    simp [ht]
  refine ⟨ht, hmiss, ?_, by simp [latRangeBad, ht], by simp [lngRangeBad, ht]⟩
  unfold abortsPreflight fn_handle_arguments_error
  have hne : missingArgs a ≠ [] := by
    intro h0
    rw [h0] at hmiss
    exact (List.not_mem_nil name) hmiss
  simp [hne]

/-- Witness for C10: `--lat1=0` with all other arguments valid. -/
theorem C10_witness :
    truthy (JSVal.num 0) = false ∧ "lat1" ∈ missingArgs argsZeroLat ∧
    abortsPreflight argsZeroLat false = true ∧
    latRangeBad (JSVal.num 0) = false ∧ lngRangeBad (JSVal.num 0) = false :=
  C10_zero_coordinate_treated_missing argsZeroLat false "lat1" (JSVal.num 0)
    (by decide) (by decide) rfl

/-- Witness for the amended C2 at `retries = 2`. -/
theorem C2_witness :
    (download_image envConvFail true 2).attempts = 2 ∧
    (download_image envConvFail true 2).conversions = 2 ∧
    (download_image envConvFail true 2).success = false ∧
    (processJob envConvFail true 2 false false).outcome = Outcome.failed :=
  C2_conversion_failure_retries envConvFail 2 (by norm_num) (fun _ => rfl) (fun _ => rfl)

end Mapcache
